import Mathlib

/-!
Verification of the batch text-encoding pipeline contract of the
rust-tokenizers Python bindings.  The repository's visible sources are the
binding declarations, tests and benchmarks; the encoding pipeline itself
(truncation engine, sequence assembler, batch encoder) lives in the wrapped
native library.  Following the specification, the pipeline is modelled here
and its contract is proved against that model.
-/

namespace RustTokenizers

/-- Modelled from the spec: the immutable `EncodingResult` record returned to
the caller (the concrete record type lives in the native library, not in the
provided sources): final token-ID sequence including special tokens, the
segment-ID sequence, the special-tokens mask, and the overflowing tokens
removed by truncation. -/
structure EncodingResult where
  token_ids : List Nat
  segment_ids : List Nat
  special_tokens_mask : List Nat
  overflowing_tokens : List Nat
deriving DecidableEq

/-- Modelled from the spec: the four truncation strategies accepted by the
encoding entry points (the strategy enum of the native truncation engine is
not in the provided sources). -/
inductive TruncationStrategy where
  | longestFirst
  | onlyFirst
  | onlySecond
  | doNotTruncate
deriving DecidableEq

/-- Modelled from the spec: the per-element encoding error taxonomy; under
`do_not_truncate` an over-long input is reported as a sequence-too-long
condition distinguishable from successful encoding. -/
inductive TokenizerError where
  | sequenceTooLong
deriving DecidableEq

/-- Decidable equality of fallible encoding outcomes, so that concrete
scenarios can be checked by evaluation. -/
instance {ε α : Type} [DecidableEq ε] [DecidableEq α] : DecidableEq (Except ε α) := fun
  | .error e₁, .error e₂ =>
    if h : e₁ = e₂ then .isTrue (by rw [h]) else .isFalse (fun hc => h (Except.error.inj hc))
  | .error _, .ok _ => .isFalse (fun hc => Except.noConfusion hc)
  | .ok _, .error _ => .isFalse (fun hc => Except.noConfusion hc)
  | .ok a₁, .ok a₂ =>
    if h : a₁ = a₂ then .isTrue (by rw [h]) else .isFalse (fun hc => h (Except.ok.inj hc))

/-- Modelled from the spec: the `TokenVocabulary` contract (vocabulary loading
and its data structure live in the native library): a mapping from token
strings to integer IDs plus the named special-token IDs used by the
single-sentence and sentence-pair layouts. -/
structure Vocab where
  entries : List (String × Nat)
  unkId : Nat
  clsId : Nat
  sepId : Nat
deriving DecidableEq

/-- Modelled from the spec: a tokenizer binding instance.  Each model family
is exposed as a distinct binding type sharing one encoding contract; the
`family` tag records that identity, while the behaviourally relevant state is
the vocabulary and the recognized configuration flags. -/
structure Tokenizer where
  family : String
  vocab : Vocab
  doLowerCase : Bool
  stripAccents : Bool
  addPrefixSpace : Bool
deriving DecidableEq

/-- Splits a character stream on spaces, accumulating the current word in
reverse; empty fragments are dropped, so an empty input yields no words. -/
def wordsAux : List Char → List Char → List String
  | [], acc => if acc.isEmpty then [] else [String.mk acc.reverse]
  | c :: cs, acc =>
    if c = ' ' then
      (if acc.isEmpty then wordsAux cs [] else String.mk acc.reverse :: wordsAux cs [])
    else wordsAux cs (c :: acc)

/-- Lower-cases one ASCII letter; other characters are unchanged. -/
def asciiLower (c : Char) : Char :=
  if 'A' ≤ c ∧ c ≤ 'Z' then Char.ofNat (c.toNat + 32) else c

/-- Modelled from the spec: the text normalization selected by the
configuration flags.  Unicode normalization details are out of scope of the
specification; `do_lower_case` is modelled as ASCII lower-casing, and the
options that do not apply to this family (`strip_accents`,
`add_prefix_space`) are ignored rather than rejected. -/
def normalize (t : Tokenizer) (text : String) : String :=
  if t.doLowerCase then String.mk (text.data.map asciiLower) else text

/-- Modelled from the spec: the `SegmentationAdapter`, a pluggable external
capability producing a sequence of integer IDs for a raw input string.  It is
modelled as whitespace segmentation followed by vocabulary lookup, with an
unknown piece recovered locally by substituting the configured unknown ID;
segmentation of an empty string yields an empty ID sequence. -/
def segment (t : Tokenizer) (text : String) : List Nat :=
  (wordsAux (normalize t text).data []).map
    (fun w => (t.vocab.entries.lookup w).getD t.vocab.unkId)

/-- Modelled from the spec: the `longest_first` truncation loop of the
truncation engine.  While the combined length exceeds the content budget, one
token is removed from the end of whichever sequence is currently longer (ties
shrink the first sequence), and removed tokens are accumulated
most-recently-removed first.  The loop is expressed with an explicit
iteration bound equal to the combined length, which provably suffices for the
loop to reach its exit condition. -/
def lfStep : Nat → List Nat → List Nat → Nat → List Nat →
    List Nat × List Nat × List Nat
  | 0, a, b, _, ov => (a, b, ov)
  | fuel + 1, a, b, budget, ov =>
    if a.length + b.length ≤ budget then (a, b, ov)
    else if a.length < b.length then
      lfStep fuel a b.dropLast budget (b.getLastD 0 :: ov)
    else
      lfStep fuel a.dropLast b budget (a.getLastD 0 :: ov)

/-- Runs the `longest_first` loop from an accumulator, with the iteration
bound instantiated to the combined input length. -/
def lfLoop (a b : List Nat) (budget : Nat) (ov : List Nat) :
    List Nat × List Nat × List Nat :=
  lfStep (a.length + b.length) a b budget ov

/-- Modelled from the spec: `longest_first` truncation with stride-capped
overflow — the accumulated overflow retains at most `stride` entries, the
oldest excess being discarded. -/
def truncateLongestFirst (a b : List Nat) (budget stride : Nat) :
    List Nat × List Nat × List Nat :=
  ((lfLoop a b budget []).1, (lfLoop a b budget []).2.1,
    (lfLoop a b budget []).2.2.take stride)

/-- Modelled from the spec: the truncation engine contract
`truncate(seq_a, seq_b, budget, strategy, stride)`, where `budget` is the
content-token budget left after the caller reserved the special-token slots.
`only_first` and `only_second` trim one designated sequence and fail when
that sequence alone cannot satisfy the budget; `do_not_truncate` reports a
sequence-too-long condition instead of trimming. -/
def truncate (a b : List Nat) (budget : Nat) (strategy : TruncationStrategy)
    (stride : Nat) :
    Except TokenizerError (List Nat × List Nat × List Nat) :=
  match strategy with
  | .longestFirst => .ok (truncateLongestFirst a b budget stride)
  | .onlyFirst =>
    if b.length ≤ budget then
      .ok (a.take (budget - b.length), b, (a.drop (budget - b.length)).take stride)
    else .error .sequenceTooLong
  | .onlySecond =>
    if a.length ≤ budget then
      .ok (a, b.take (budget - a.length), (b.drop (budget - a.length)).take stride)
    else .error .sequenceTooLong
  | .doNotTruncate =>
    if a.length + b.length ≤ budget then .ok (a, b, [])
    else .error .sequenceTooLong

/-- Modelled from the spec: the sequence assembler for the single-sentence
layout `[CLS] A [SEP]` — two reserved special-token slots, all-zero segment
IDs, and a mask marking exactly the inserted special tokens. -/
def assembleSingle (v : Vocab) (a ov : List Nat) : EncodingResult :=
  { token_ids := v.clsId :: a ++ [v.sepId]
    segment_ids := List.replicate (a.length + 2) 0
    special_tokens_mask := 1 :: List.replicate a.length 0 ++ [1]
    overflowing_tokens := ov }

/-- Modelled from the spec: the sequence assembler for the sentence-pair
layout `[CLS] A [SEP] B [SEP]` — three reserved special-token slots, segment
IDs 0 for segment A with its leading and separating special tokens and 1 for
segment B with its closing separator. -/
def assemblePair (v : Vocab) (a b ov : List Nat) : EncodingResult :=
  { token_ids := v.clsId :: a ++ v.sepId :: b ++ [v.sepId]
    segment_ids := List.replicate (a.length + 2) 0 ++ List.replicate (b.length + 1) 1
    special_tokens_mask := 1 :: List.replicate a.length 0 ++ 1 :: List.replicate b.length 0 ++ [1]
    overflowing_tokens := ov }

/-- Modelled from the spec: single-input encoding — segmentation, truncation
against the budget left after reserving the two single-sentence special-token
slots, then assembly. -/
def encode (t : Tokenizer) (text : String) (maxLen : Nat)
    (strategy : TruncationStrategy) (stride : Nat) :
    Except TokenizerError EncodingResult :=
  match truncate (segment t text) [] (maxLen - 2) strategy stride with
  | .error e => .error e
  | .ok (a, _, ov) => .ok (assembleSingle t.vocab a ov)

/-- Modelled from the spec: pair encoding — both texts are segmented,
truncated against the budget left after reserving the three sentence-pair
special-token slots, then assembled. -/
def encodePair (t : Tokenizer) (pair : String × String) (maxLen : Nat)
    (strategy : TruncationStrategy) (stride : Nat) :
    Except TokenizerError EncodingResult :=
  match truncate (segment t pair.1) (segment t pair.2) (maxLen - 3) strategy stride with
  | .error e => .error e
  | .ok (a, b, ov) => .ok (assemblePair t.vocab a b ov)

/-- Modelled from the spec: the sequential contract of the batch encoder —
each input is processed independently, one result per input, in input
order. -/
def encodeList (t : Tokenizer) (texts : List String) (maxLen : Nat)
    (strategy : TruncationStrategy) (stride : Nat) :
    List (Except TokenizerError EncodingResult) :=
  texts.map (fun x => encode t x maxLen strategy stride)

/-- Modelled from the spec: the sequential contract of the paired batch
encoder. -/
def encodePairList (t : Tokenizer) (pairs : List (String × String)) (maxLen : Nat)
    (strategy : TruncationStrategy) (stride : Nat) :
    List (Except TokenizerError EncodingResult) :=
  pairs.map (fun p => encodePair t p maxLen strategy stride)

/-- Modelled from the spec: one worker step of the parallel batch dispatch —
the result for input `i` is written into output slot `i` of an
index-addressed buffer; an index outside the batch writes nothing. -/
def slotWrite (f : α → β) (xs : List α) (buf : List (Option β)) (i : Nat) :
    List (Option β) :=
  match xs[i]? with
  | some x => buf.set i (some (f x))
  | none => buf

/-- Modelled from the spec: the parallel batch executor — tasks, one per
input element, run in an arbitrary interleaving given by `order`, each
writing its result into its own slot of an index-addressed output buffer. -/
def scheduleMap (f : α → β) (xs : List α) (order : List Nat) : List (Option β) :=
  order.foldl (slotWrite f xs) (List.replicate xs.length none)

/-- The concrete demonstration vocabulary of the specification's scenario. -/
def demoVocab : Vocab :=
  { entries := [("[CLS]", 0), ("[SEP]", 1), ("hello", 2), ("world", 3),
                ("[PAD]", 4), ("[UNK]", 5)]
    unkId := 5
    clsId := 0
    sepId := 1 }

/-- A tokenizer instance over the demonstration vocabulary. -/
def demoTokenizer : Tokenizer :=
  { family := "bert"
    vocab := demoVocab
    doLowerCase := false
    stripAccents := false
    addPrefixSpace := false }

/-- A binding of a different model-family identity constructed over the very
same vocabulary and configuration flags. -/
def demoTokenizer2 : Tokenizer :=
  { demoTokenizer with family := "distilbert" }

/-- The overflow accumulator of the `longest_first` loop only ever receives
new entries at its front: running from `ov` appends `ov` behind the overflow
produced from an empty accumulator. -/
theorem lfStep_append : ∀ (fuel : Nat) (a b : List Nat) (budget : Nat) (ov : List Nat),
    lfStep fuel a b budget ov =
      ((lfStep fuel a b budget []).1, (lfStep fuel a b budget []).2.1,
        (lfStep fuel a b budget []).2.2 ++ ov) := by
  intro fuel
  induction fuel with
  | zero => intro a b budget ov; simp [lfStep]
  | succ n ih =>
    intro a b budget ov
    simp only [lfStep]
    split
    · simp
    · split
      · rw [ih a b.dropLast budget (b.getLastD 0 :: ov),
          ih a b.dropLast budget [b.getLastD 0]]
        simp
      · rw [ih a.dropLast b budget (a.getLastD 0 :: ov),
          ih a.dropLast b budget [a.getLastD 0]]
        simp

/-- Main invariant of the `longest_first` loop, for any sufficient iteration
bound: the kept sequences are front segments of the inputs, their combined
length is the combined input length clipped to the budget, and the overflow
grows by exactly the number of removed tokens. -/
theorem lfStep_main : ∀ (fuel : Nat) (a b : List Nat) (budget : Nat) (ov : List Nat),
    a.length + b.length ≤ budget + fuel →
    (lfStep fuel a b budget ov).1 =
        a.take (lfStep fuel a b budget ov).1.length ∧
      (lfStep fuel a b budget ov).2.1 =
        b.take (lfStep fuel a b budget ov).2.1.length ∧
      (lfStep fuel a b budget ov).1.length + (lfStep fuel a b budget ov).2.1.length =
        min (a.length + b.length) budget ∧
      (lfStep fuel a b budget ov).2.2.length =
        (a.length + b.length - budget) + ov.length := by
  intro fuel
  induction fuel with
  | zero =>
    intro a b budget ov h
    simp only [lfStep]
    refine ⟨(List.take_length a).symm, (List.take_length b).symm, ?_, ?_⟩
    · show a.length + b.length = min (a.length + b.length) budget
      omega
    · show ov.length = (a.length + b.length - budget) + ov.length
      omega
  | succ n ih =>
    intro a b budget ov h
    simp only [lfStep]
    split
    · rename_i hle
      refine ⟨(List.take_length a).symm, (List.take_length b).symm, ?_, ?_⟩
      · show a.length + b.length = min (a.length + b.length) budget
        omega
      · show ov.length = (a.length + b.length - budget) + ov.length
        omega
    · rename_i hover
      split
      · rename_i hab
        have hb : b.length ≠ 0 := by omega
        obtain ⟨h1, h2, h3, h4⟩ := ih a b.dropLast budget (b.getLastD 0 :: ov)
          (by simp only [List.length_dropLast]; omega)
        have hlen : (lfStep n a b.dropLast budget (b.getLastD 0 :: ov)).2.1.length ≤
            b.length - 1 := by
          have hc := congrArg List.length h2
          simp only [List.length_take, List.length_dropLast] at hc
          omega
        refine ⟨h1, ?_, ?_, ?_⟩
        · have hbt : b.dropLast.take
              (lfStep n a b.dropLast budget (b.getLastD 0 :: ov)).2.1.length =
              b.take (lfStep n a b.dropLast budget (b.getLastD 0 :: ov)).2.1.length := by
            rw [List.dropLast_eq_take, List.take_take]
            congr 1
            simp only [← List.dropLast_eq_take]
            simp only [List.length_dropLast] at hlen ⊢
            omega
          conv_lhs => rw [h2]
          exact hbt
        · rw [h3]
          simp only [List.length_dropLast]
          omega
        · rw [h4]
          simp only [List.length_dropLast, List.length_cons]
          omega
      · rename_i hab
        have ha : a.length ≠ 0 := by omega
        obtain ⟨h1, h2, h3, h4⟩ := ih a.dropLast b budget (a.getLastD 0 :: ov)
          (by simp only [List.length_dropLast]; omega)
        have hlen : (lfStep n a.dropLast b budget (a.getLastD 0 :: ov)).1.length ≤
            a.length - 1 := by
          have hc := congrArg List.length h1
          simp only [List.length_take, List.length_dropLast] at hc
          omega
        refine ⟨?_, h2, ?_, ?_⟩
        · have hat : a.dropLast.take
              (lfStep n a.dropLast b budget (a.getLastD 0 :: ov)).1.length =
              a.take (lfStep n a.dropLast b budget (a.getLastD 0 :: ov)).1.length := by
            rw [List.dropLast_eq_take, List.take_take]
            congr 1
            simp only [← List.dropLast_eq_take]
            simp only [List.length_dropLast] at hlen ⊢
            omega
          conv_lhs => rw [h1]
          exact hat
        · rw [h3]
          simp only [List.length_dropLast]
          omega
        · rw [h4]
          simp only [List.length_dropLast, List.length_cons]
          omega

/-- The `longest_first` loop is the identity when the input already fits the
budget. -/
theorem lfLoop_within (a b : List Nat) (budget : Nat) (ov : List Nat)
    (h : a.length + b.length ≤ budget) : lfLoop a b budget ov = (a, b, ov) := by
  unfold lfLoop
  cases hs : a.length + b.length with
  | zero => simp [lfStep]
  | succ n => simp [lfStep, h]

/-- Combined-length law of the `longest_first` loop. -/
theorem lfLoop_len (a b : List Nat) (budget : Nat) :
    (lfLoop a b budget []).1.length + (lfLoop a b budget []).2.1.length =
      min (a.length + b.length) budget :=
  (lfStep_main (a.length + b.length) a b budget [] (by omega)).2.2.1

/-- The kept first sequence is a front segment of the input. -/
theorem lfLoop_take_a (a b : List Nat) (budget : Nat) :
    (lfLoop a b budget []).1 = a.take (lfLoop a b budget []).1.length :=
  (lfStep_main (a.length + b.length) a b budget [] (by omega)).1

/-- The kept second sequence is a front segment of the input. -/
theorem lfLoop_take_b (a b : List Nat) (budget : Nat) :
    (lfLoop a b budget []).2.1 = b.take (lfLoop a b budget []).2.1.length :=
  (lfStep_main (a.length + b.length) a b budget [] (by omega)).2.1

/-- The uncapped overflow holds exactly the removed tokens. -/
theorem lfLoop_ov_len (a b : List Nat) (budget : Nat) :
    (lfLoop a b budget []).2.2.length = a.length + b.length - budget := by
  have h := (lfStep_main (a.length + b.length) a b budget [] (by omega)).2.2.2
  simpa using h

/-- A successful truncation keeps, across both sequences, the combined input
length clipped to the content budget, whatever the strategy. -/
theorem truncate_ok_len (a b : List Nat) (budget : Nat)
    (strategy : TruncationStrategy) (stride : Nat)
    (a' b' ov : List Nat)
    (h : truncate a b budget strategy stride = .ok (a', b', ov)) :
    a'.length + b'.length = min (a.length + b.length) budget := by
  cases strategy with
  | longestFirst =>
    simp only [truncate, truncateLongestFirst, Except.ok.injEq, Prod.mk.injEq] at h
    obtain ⟨h1, h2, _⟩ := h
    rw [← h1, ← h2]
    exact lfLoop_len a b budget
  | onlyFirst =>
    simp only [truncate] at h
    split at h
    · rename_i hb
      simp only [Except.ok.injEq, Prod.mk.injEq] at h
      obtain ⟨h1, h2, _⟩ := h
      rw [← h1, ← h2]
      simp only [List.length_take]
      omega
    · exact absurd h (by simp)
  | onlySecond =>
    simp only [truncate] at h
    split at h
    · rename_i ha
      simp only [Except.ok.injEq, Prod.mk.injEq] at h
      obtain ⟨h1, h2, _⟩ := h
      rw [← h1, ← h2]
      simp only [List.length_take]
      omega
    · exact absurd h (by simp)
  | doNotTruncate =>
    simp only [truncate] at h
    split at h
    · rename_i hle
      simp only [Except.ok.injEq, Prod.mk.injEq] at h
      obtain ⟨h1, h2, _⟩ := h
      rw [← h1, ← h2]
      omega
    · exact absurd h (by simp)

/-- Truncation is a no-op, with empty overflow, on input that already fits
the content budget, whatever the strategy. -/
theorem truncate_within (a b : List Nat) (budget : Nat)
    (strategy : TruncationStrategy) (stride : Nat)
    (h : a.length + b.length ≤ budget) :
    truncate a b budget strategy stride = .ok (a, b, []) := by
  cases strategy with
  | longestFirst =>
    simp only [truncate, truncateLongestFirst, lfLoop_within a b budget [] h, List.take_nil]
  | onlyFirst =>
    have hb : b.length ≤ budget := by omega
    simp only [truncate, if_pos hb, List.take_of_length_le (by omega : a.length ≤ budget - b.length),
      List.drop_eq_nil_of_le (by omega : a.length ≤ budget - b.length), List.take_nil]
  | onlySecond =>
    have ha : a.length ≤ budget := by omega
    simp only [truncate, if_pos ha, List.take_of_length_le (by omega : b.length ≤ budget - a.length),
      List.drop_eq_nil_of_le (by omega : b.length ≤ budget - a.length), List.take_nil]
  | doNotTruncate =>
    simp only [truncate, if_pos h]

/-- Writing one task's result does not change the buffer length. -/
theorem slotWrite_length (f : α → β) (xs : List α) (buf : List (Option β)) (i : Nat) :
    (slotWrite f xs buf i).length = buf.length := by
  unfold slotWrite
  split <;> simp [List.length_set]

/-- Pointwise description of running a set of tasks over the output buffer:
a slot named by the schedule holds its own input's result, and the other
slots are untouched — workers never race on the same slot because the value
written to slot `j` is determined by `j` alone. -/
theorem foldl_slotWrite_getElem? (f : α → β) (xs : List α) :
    ∀ (order : List Nat) (buf : List (Option β)), buf.length = xs.length →
      ∀ (j : Nat),
        (order.foldl (slotWrite f xs) buf)[j]? =
          if j ∈ order ∧ j < xs.length then (xs[j]?).map (fun x => some (f x))
          else buf[j]? := by
  intro order
  induction order with
  | nil =>
    intro buf hbuf j
    simp
  | cons i rest ih =>
    intro buf hbuf j
    rw [List.foldl_cons, ih (slotWrite f xs buf i)
      (by rw [slotWrite_length]; exact hbuf) j]
    by_cases hjr : j ∈ rest ∧ j < xs.length
    · rw [if_pos hjr, if_pos ⟨List.mem_cons_of_mem i hjr.1, hjr.2⟩]
    · rw [if_neg hjr]
      by_cases hji : j = i
      · subst hji
        by_cases hlt : j < xs.length
        · have hx : xs[j]? = some xs[j] := List.getElem?_eq_getElem hlt
          simp only [slotWrite, hx]
          rw [List.getElem?_set_self (by rw [hbuf]; exact hlt)]
          rw [if_pos ⟨List.mem_cons_self j rest, hlt⟩]
          rfl
        · have hx : xs[j]? = none := List.getElem?_eq_none (by omega)
          simp only [slotWrite, hx]
          rw [if_neg (fun hc => hlt hc.2)]
      · have hne : i ≠ j := fun hc => hji hc.symm
        have hsw : (slotWrite f xs buf i)[j]? = buf[j]? := by
          cases hx : xs[i]? with
          | none => simp [slotWrite, hx]
          | some x => simp [slotWrite, hx, List.getElem?_set_ne hne]
        rw [hsw, if_neg (fun hc => hjr ⟨(List.mem_cons.mp hc.1).resolve_left hji, hc.2⟩)]

/-- Any schedule that names every input index — in particular any permutation
of the indices, whatever interleaving the worker pool produces — fills the
output buffer with exactly the element-wise results, in input order. -/
theorem scheduleMap_eq_map (f : α → β) (xs : List α) (order : List Nat)
    (h : order.Perm (List.range xs.length)) :
    scheduleMap f xs order = (xs.map f).map some := by
  apply List.ext_getElem?
  intro j
  unfold scheduleMap
  rw [foldl_slotWrite_getElem? f xs order (List.replicate xs.length none)
    (List.length_replicate xs.length none) j]
  by_cases hlt : j < xs.length
  · rw [if_pos ⟨h.mem_iff.mpr (List.mem_range.mpr hlt), hlt⟩]
    rw [List.getElem?_map, List.getElem?_map, List.getElem?_eq_getElem hlt]
    rfl
  · rw [if_neg (fun hc => hlt hc.2)]
    rw [List.getElem?_eq_none (by simp only [List.length_replicate]; omega),
      List.getElem?_eq_none (by simp only [List.length_map]; omega)]

/-- Lengths of the three aligned arrays built by the single-sentence
assembler. -/
theorem assembleSingle_lengths (v : Vocab) (a ov : List Nat) :
    (assembleSingle v a ov).token_ids.length = a.length + 2 ∧
      (assembleSingle v a ov).segment_ids.length = a.length + 2 ∧
      (assembleSingle v a ov).special_tokens_mask.length = a.length + 2 := by
  refine ⟨?_, ?_, ?_⟩ <;>
    simp [assembleSingle, List.length_append, List.length_replicate]

/-- Lengths of the three aligned arrays built by the sentence-pair
assembler. -/
theorem assemblePair_lengths (v : Vocab) (a b ov : List Nat) :
    (assemblePair v a b ov).token_ids.length = a.length + b.length + 3 ∧
      (assemblePair v a b ov).segment_ids.length = a.length + b.length + 3 ∧
      (assemblePair v a b ov).special_tokens_mask.length = a.length + b.length + 3 := by
  refine ⟨?_, ?_, ?_⟩ <;>
    simp [assemblePair, List.length_append, List.length_replicate]
  all_goals omega

/-- Every successful single-sentence encoding is the assembly of some
successful truncation of the segmented input. -/
theorem encode_ok_shape (t : Tokenizer) (x : String) (maxLen : Nat)
    (strategy : TruncationStrategy) (stride : Nat) (r : EncodingResult)
    (h : encode t x maxLen strategy stride = .ok r) :
    ∃ res, truncate (segment t x) [] (maxLen - 2) strategy stride = .ok res ∧
      r = assembleSingle t.vocab res.1 res.2.2 := by
  unfold encode at h
  cases htr : truncate (segment t x) [] (maxLen - 2) strategy stride with
  | error e => rw [htr] at h; exact absurd h (by simp)
  | ok res =>
    rw [htr] at h
    obtain ⟨a', b', ov⟩ := res
    simp only [Except.ok.injEq] at h
    exact ⟨(a', b', ov), rfl, h.symm⟩

/-- Every successful pair encoding is the assembly of some successful
truncation of the two segmented inputs. -/
theorem encodePair_ok_shape (t : Tokenizer) (p : String × String) (maxLen : Nat)
    (strategy : TruncationStrategy) (stride : Nat) (r : EncodingResult)
    (h : encodePair t p maxLen strategy stride = .ok r) :
    ∃ res, truncate (segment t p.1) (segment t p.2) (maxLen - 3) strategy stride = .ok res ∧
      r = assemblePair t.vocab res.1 res.2.1 res.2.2 := by
  unfold encodePair at h
  cases htr : truncate (segment t p.1) (segment t p.2) (maxLen - 3) strategy stride with
  | error e => rw [htr] at h; exact absurd h (by simp)
  | ok res =>
    rw [htr] at h
    obtain ⟨a', b', ov⟩ := res
    simp only [Except.ok.injEq] at h
    exact ⟨(a', b', ov), rfl, h.symm⟩

/-- A successful single-sentence encoding has its three arrays aligned. -/
theorem encode_ok_alignment (t : Tokenizer) (x : String) (maxLen : Nat)
    (strategy : TruncationStrategy) (stride : Nat) (r : EncodingResult)
    (h : encode t x maxLen strategy stride = .ok r) :
    r.token_ids.length = r.segment_ids.length ∧
      r.token_ids.length = r.special_tokens_mask.length := by
  obtain ⟨res, htr, hr⟩ := encode_ok_shape t x maxLen strategy stride r h
  obtain ⟨l1, l2, l3⟩ := assembleSingle_lengths t.vocab res.1 res.2.2
  subst hr
  rw [l1, l2, l3]
  exact ⟨rfl, rfl⟩

/-- A successful pair encoding has its three arrays aligned. -/
theorem encodePair_ok_alignment (t : Tokenizer) (p : String × String) (maxLen : Nat)
    (strategy : TruncationStrategy) (stride : Nat) (r : EncodingResult)
    (h : encodePair t p maxLen strategy stride = .ok r) :
    r.token_ids.length = r.segment_ids.length ∧
      r.token_ids.length = r.special_tokens_mask.length := by
  obtain ⟨res, htr, hr⟩ := encodePair_ok_shape t p maxLen strategy stride r h
  obtain ⟨l1, l2, l3⟩ := assemblePair_lengths t.vocab res.1 res.2.1 res.2.2
  subst hr
  rw [l1, l2, l3]
  exact ⟨rfl, rfl⟩

/-- When the segmented input plus the two reserved slots fits both limits,
single-sentence encoding does not depend on the particular limit. -/
theorem encode_fits_irrelevant (t : Tokenizer) (x : String) (maxLen₁ maxLen₂ : Nat)
    (strategy : TruncationStrategy) (stride : Nat)
    (h₁ : (segment t x).length + 2 ≤ maxLen₁)
    (h₂ : (segment t x).length + 2 ≤ maxLen₂) :
    encode t x maxLen₁ strategy stride = encode t x maxLen₂ strategy stride := by
  unfold encode
  rw [truncate_within _ _ _ _ _ (by simp only [List.length_nil]; omega),
    truncate_within _ _ _ _ _ (by simp only [List.length_nil]; omega)]

/-- C1: batch/sequential equivalence — `encode_list` equals the element-wise
map of `encode` over the input texts, `encode_pair_list` equals the
element-wise map of `encode_pair` over the pairs, and dispatching the batch
through the index-addressed parallel executor under any execution order (any
permutation of the task indices) produces exactly those sequential results,
slot for slot. -/
theorem batch_sequential_equivalence (t : Tokenizer) (xs : List String)
    (ps : List (String × String)) (maxLen : Nat) (strategy : TruncationStrategy)
    (stride : Nat) (order₁ order₂ : List Nat)
    (h₁ : order₁.Perm (List.range xs.length))
    (h₂ : order₂.Perm (List.range ps.length)) :
    encodeList t xs maxLen strategy stride =
        xs.map (fun x => encode t x maxLen strategy stride) ∧
      encodePairList t ps maxLen strategy stride =
        ps.map (fun p => encodePair t p maxLen strategy stride) ∧
      scheduleMap (fun x => encode t x maxLen strategy stride) xs order₁ =
        (encodeList t xs maxLen strategy stride).map some ∧
      scheduleMap (fun p => encodePair t p maxLen strategy stride) ps order₂ =
        (encodePairList t ps maxLen strategy stride).map some := by
  refine ⟨rfl, rfl, ?_, ?_⟩
  · rw [scheduleMap_eq_map _ _ _ h₁]; rfl
  · rw [scheduleMap_eq_map _ _ _ h₂]; rfl

/-- Witness for C1: a two-element batch executed in reversed task order and a
one-pair batch, both matching the sequential map. -/
theorem batch_sequential_equivalence_witness :
    encodeList demoTokenizer ["hello world", "hello"] 8 .longestFirst 0 =
        (["hello world", "hello"] : List String).map
          (fun x => encode demoTokenizer x 8 .longestFirst 0) ∧
      encodePairList demoTokenizer [("hello", "world")] 8 .longestFirst 0 =
        ([("hello", "world")] : List (String × String)).map
          (fun p => encodePair demoTokenizer p 8 .longestFirst 0) ∧
      scheduleMap (fun x => encode demoTokenizer x 8 .longestFirst 0)
          ["hello world", "hello"] [1, 0] =
        (encodeList demoTokenizer ["hello world", "hello"] 8 .longestFirst 0).map some ∧
      scheduleMap (fun p => encodePair demoTokenizer p 8 .longestFirst 0)
          [("hello", "world")] [0] =
        (encodePairList demoTokenizer [("hello", "world")] 8 .longestFirst 0).map some :=
  batch_sequential_equivalence demoTokenizer ["hello world", "hello"]
    [("hello", "world")] 8 .longestFirst 0 [1, 0] [0] (by decide) (by decide)

/-- C2: `longest_first` truncation is the loop that repeatedly removes one
token from the end of whichever sequence is currently longer — ties shrinking
`seq_a` first — until the combined length fits the budget; removed tokens are
accumulated most-recently-removed first, and the returned overflow retains at
most `stride` of them, the oldest excess being discarded. -/
theorem longest_first_loop_spec (a b : List Nat) (budget stride : Nat) :
    (a.length + b.length ≤ budget → lfLoop a b budget [] = (a, b, [])) ∧
      (budget < a.length + b.length → a.length < b.length →
        lfLoop a b budget [] =
          ((lfLoop a b.dropLast budget []).1, (lfLoop a b.dropLast budget []).2.1,
            (lfLoop a b.dropLast budget []).2.2 ++ [b.getLastD 0])) ∧
      (budget < a.length + b.length → b.length ≤ a.length →
        lfLoop a b budget [] =
          ((lfLoop a.dropLast b budget []).1, (lfLoop a.dropLast b budget []).2.1,
            (lfLoop a.dropLast b budget []).2.2 ++ [a.getLastD 0])) ∧
      truncateLongestFirst a b budget stride =
        ((lfLoop a b budget []).1, (lfLoop a b budget []).2.1,
          (lfLoop a b budget []).2.2.take stride) ∧
      (truncateLongestFirst a b budget stride).2.2.length ≤ stride ∧
      (lfLoop a b budget []).2.2.length = a.length + b.length - budget := by
  refine ⟨fun h => lfLoop_within a b budget [] h, ?_, ?_, rfl, ?_, lfLoop_ov_len a b budget⟩
  · intro hov hab
    have hsum : a.length + b.length = (a.length + b.dropLast.length) + 1 := by
      simp only [List.length_dropLast]; omega
    unfold lfLoop
    rw [hsum]
    simp only [lfStep]
    rw [if_neg (by omega), if_pos hab]
    exact lfStep_append (a.length + b.dropLast.length) a b.dropLast budget [b.getLastD 0]
  · intro hov hba
    have hsum : a.length + b.length = (a.dropLast.length + b.length) + 1 := by
      simp only [List.length_dropLast]; omega
    unfold lfLoop
    rw [hsum]
    simp only [lfStep]
    rw [if_neg (by omega : ¬(a.length + b.length ≤ budget)),
      if_neg (by omega : ¬a.length < b.length)]
    exact lfStep_append (a.dropLast.length + b.length) a.dropLast b budget [a.getLastD 0]
  · simp only [truncateLongestFirst, List.length_take]
    omega

/-- Witness for C2: one loop step removing from the longer second sequence,
and the stride cap keeping the two most recent removals. -/
theorem longest_first_loop_spec_witness :
    lfLoop [1, 2] [3, 4, 5] 3 [] =
        ((lfLoop [1, 2] [3, 4] 3 []).1, (lfLoop [1, 2] [3, 4] 3 []).2.1,
          (lfLoop [1, 2] [3, 4] 3 []).2.2 ++ [5]) ∧
      (truncateLongestFirst [1, 2] [3, 4, 5] 3 2).2.2.length ≤ 2 :=
  ⟨(longest_first_loop_spec [1, 2] [3, 4, 5] 3 2).2.1 (by decide) (by decide),
    (longest_first_loop_spec [1, 2] [3, 4, 5] 3 2).2.2.2.2.1⟩

/-- C3: convergence of `longest_first` truncation — the loop is a total
function of its inputs (it provably reaches its exit condition), and for any
reservation within `max_len`: when the original combined content length plus
the reserved slots exceeds `max_len`, the truncated lengths satisfy
`len a' + len b' + reserved = max_len` exactly; otherwise both sequences are
returned unchanged with empty overflow. -/
theorem longest_first_convergence (a b : List Nat) (maxLen reserved stride : Nat)
    (hres : reserved ≤ maxLen) :
    (maxLen < a.length + b.length + reserved →
        (truncateLongestFirst a b (maxLen - reserved) stride).1.length +
            (truncateLongestFirst a b (maxLen - reserved) stride).2.1.length +
            reserved = maxLen) ∧
      (a.length + b.length + reserved ≤ maxLen →
        truncateLongestFirst a b (maxLen - reserved) stride = (a, b, [])) := by
  constructor
  · intro hover
    have hmin := lfLoop_len a b (maxLen - reserved)
    simp only [truncateLongestFirst]
    omega
  · intro hfit
    simp only [truncateLongestFirst,
      lfLoop_within a b (maxLen - reserved) [] (by omega), List.take_nil]

/-- Witness for C3: five content tokens against `max_len = 4` with two
reserved slots truncate to exactly two kept tokens, and a short input is left
unchanged. -/
theorem longest_first_convergence_witness :
    ((truncateLongestFirst [2, 3, 2, 3, 2] [] (4 - 2) 1).1.length +
        (truncateLongestFirst [2, 3, 2, 3, 2] [] (4 - 2) 1).2.1.length + 2 = 4) ∧
      truncateLongestFirst [2, 3] [] (8 - 2) 1 = ([2, 3], [], []) :=
  ⟨(longest_first_convergence [2, 3, 2, 3, 2] [] 4 2 1 (by decide)).1 (by decide),
    (longest_first_convergence [2, 3] [] 8 2 1 (by decide)).2 (by decide)⟩

/-- C4: under `do_not_truncate`, an over-budget input is reported as the
sequence-too-long condition, which is never a successful result, and no
tokens are trimmed; a within-budget input is returned untrimmed and the
single-sentence encoding equals the untruncated assembly; an over-long
element does not abort the batch, which still yields one outcome per input,
in order. -/
theorem do_not_truncate_reports (a b : List Nat) (budget stride : Nat)
    (t : Tokenizer) (x : String) (xs : List String) (maxLen stride₂ : Nat) :
    (budget < a.length + b.length →
        truncate a b budget .doNotTruncate stride = .error .sequenceTooLong) ∧
      (budget < a.length + b.length →
        ∀ res, truncate a b budget .doNotTruncate stride ≠ .ok res) ∧
      (a.length + b.length ≤ budget →
        truncate a b budget .doNotTruncate stride = .ok (a, b, [])) ∧
      ((segment t x).length + 2 ≤ maxLen →
        encode t x maxLen .doNotTruncate stride₂ =
          .ok (assembleSingle t.vocab (segment t x) [])) ∧
      (encodeList t xs maxLen .doNotTruncate stride₂).length = xs.length ∧
      (∀ i : Nat, (encodeList t xs maxLen .doNotTruncate stride₂)[i]? =
        (xs[i]?).map (fun y => encode t y maxLen .doNotTruncate stride₂)) := by
  refine ⟨?_, ?_, ?_, ?_, ?_, ?_⟩
  · intro hover
    simp only [truncate]
    rw [if_neg (by omega)]
  · intro hover res
    simp only [truncate]
    rw [if_neg (by omega)]
    simp
  · intro hfit
    exact truncate_within a b budget .doNotTruncate stride hfit
  · intro hfit
    unfold encode
    rw [truncate_within _ _ _ _ _ (by simp only [List.length_nil]; omega)]
  · simp [encodeList]
  · intro i
    simp [encodeList, List.getElem?_map]

/-- Witness for C4: a concrete over-long input is rejected while a fitting
input encodes to the untruncated assembly and a batch keeps its size. -/
theorem do_not_truncate_reports_witness :
    truncate [2, 3] [] 1 .doNotTruncate 0 = .error .sequenceTooLong ∧
      encode demoTokenizer "hello" 4 .doNotTruncate 0 =
        .ok (assembleSingle demoTokenizer.vocab (segment demoTokenizer "hello") []) ∧
      (encodeList demoTokenizer ["hello world", "hello"] 2 .doNotTruncate 0).length = 2 :=
  ⟨(do_not_truncate_reports [2, 3] [] 1 0 demoTokenizer "hello" [] 4 0).1 (by decide),
    (do_not_truncate_reports [2, 3] [] 1 0 demoTokenizer "hello" [] 4 0).2.2.2.1 (by decide),
    (do_not_truncate_reports [2, 3] [] 1 0 demoTokenizer "hello"
      ["hello world", "hello"] 2 0).2.2.2.2.1⟩

/-- C5: mask/segment alignment — every `EncodingResult` produced by `encode`,
`encode_pair`, `encode_list` or `encode_pair_list` has token IDs, segment IDs
and special-tokens mask of one common length. -/
theorem mask_segment_alignment (t : Tokenizer) (maxLen : Nat)
    (strategy : TruncationStrategy) (stride : Nat) :
    (∀ x r, encode t x maxLen strategy stride = .ok r →
        r.token_ids.length = r.segment_ids.length ∧
          r.token_ids.length = r.special_tokens_mask.length) ∧
      (∀ p r, encodePair t p maxLen strategy stride = .ok r →
        r.token_ids.length = r.segment_ids.length ∧
          r.token_ids.length = r.special_tokens_mask.length) ∧
      (∀ xs (i : Nat) r, (encodeList t xs maxLen strategy stride)[i]? = some (.ok r) →
        r.token_ids.length = r.segment_ids.length ∧
          r.token_ids.length = r.special_tokens_mask.length) ∧
      (∀ ps (i : Nat) r, (encodePairList t ps maxLen strategy stride)[i]? = some (.ok r) →
        r.token_ids.length = r.segment_ids.length ∧
          r.token_ids.length = r.special_tokens_mask.length) := by
  refine ⟨?_, ?_, ?_, ?_⟩
  · intro x r h
    exact encode_ok_alignment t x maxLen strategy stride r h
  · intro p r h
    exact encodePair_ok_alignment t p maxLen strategy stride r h
  · intro xs i r h
    simp only [encodeList, List.getElem?_map] at h
    cases hx : xs[i]? with
    | none => rw [hx] at h; exact absurd h (by simp)
    | some x =>
      rw [hx] at h
      simp only [Option.map] at h
      simp only [Option.some.injEq] at h
      exact encode_ok_alignment t x maxLen strategy stride r h
  · intro ps i r h
    simp only [encodePairList, List.getElem?_map] at h
    cases hx : ps[i]? with
    | none => rw [hx] at h; exact absurd h (by simp)
    | some p =>
      rw [hx] at h
      simp only [Option.map] at h
      simp only [Option.some.injEq] at h
      exact encodePair_ok_alignment t p maxLen strategy stride r h

/-- Witness for C5 at the concrete scenario result. -/
theorem mask_segment_alignment_witness :
    (EncodingResult.mk [0, 2, 3, 1] [0, 0, 0, 0] [1, 0, 0, 1] []).token_ids.length =
        (EncodingResult.mk [0, 2, 3, 1] [0, 0, 0, 0] [1, 0, 0, 1] []).segment_ids.length ∧
      (EncodingResult.mk [0, 2, 3, 1] [0, 0, 0, 0] [1, 0, 0, 1] []).token_ids.length =
        (EncodingResult.mk [0, 2, 3, 1] [0, 0, 0, 0] [1, 0, 0, 1]
          []).special_tokens_mask.length :=
  (mask_segment_alignment demoTokenizer 4 .longestFirst 0).1 "hello world"
    (EncodingResult.mk [0, 2, 3, 1] [0, 0, 0, 0] [1, 0, 0, 1] []) (by decide)

/-- C6 counterexample: `max_len = 1` is positive, yet encoding the concrete
input under the single-sentence layout succeeds with a `token_ids` sequence
of length 2 — the two reserved special tokens — exceeding `max_len`. -/
theorem length_bound_counterexample :
    0 < 1 ∧
      encode demoTokenizer "hello world" 1 .longestFirst 0 =
        .ok (EncodingResult.mk [0, 1] [0, 0] [1, 1] []) ∧
      ¬((EncodingResult.mk [0, 1] [0, 0] [1, 1] []).token_ids.length ≤ 1) :=
  ⟨by decide, by decide, by decide⟩

/-- C6 (amended): for every input and every `max_len` at least the number of
reserved special-token slots — 2 for the single-sentence layout, 3 for the
pair layout — the assembled `token_ids` of a successful encoding has length
at most `max_len`, inserted special tokens included. -/
theorem length_bound (t : Tokenizer) (x : String) (p : String × String)
    (maxLen : Nat) (strategy : TruncationStrategy) (stride : Nat) :
    (2 ≤ maxLen → ∀ r, encode t x maxLen strategy stride = .ok r →
        r.token_ids.length ≤ maxLen) ∧
      (3 ≤ maxLen → ∀ r, encodePair t p maxLen strategy stride = .ok r →
        r.token_ids.length ≤ maxLen) := by
  constructor
  · intro hm r h
    obtain ⟨res, htr, hr⟩ := encode_ok_shape t x maxLen strategy stride r h
    obtain ⟨a', b', ov⟩ := res
    have hlen := truncate_ok_len _ _ _ _ _ _ _ _ htr
    simp only [List.length_nil, Nat.add_zero] at hlen
    subst hr
    simp [assembleSingle]
    omega
  · intro hm r h
    obtain ⟨res, htr, hr⟩ := encodePair_ok_shape t p maxLen strategy stride r h
    obtain ⟨a', b', ov⟩ := res
    have hlen := truncate_ok_len _ _ _ _ _ _ _ _ htr
    subst hr
    simp [assemblePair]
    omega

/-- Witness for C6 (amended), at the concrete scenario. -/
theorem length_bound_witness :
    (EncodingResult.mk [0, 2, 3, 1] [0, 0, 0, 0] [1, 0, 0, 1] []).token_ids.length ≤ 4 :=
  (length_bound demoTokenizer "hello world" ("hello", "world") 4 .longestFirst 0).1
    (by decide) (EncodingResult.mk [0, 2, 3, 1] [0, 0, 0, 0] [1, 0, 0, 1] []) (by decide)

/-- C7: order preservation — the batch encoders return exactly one result
per input; `output[i]` is the encoding of `input[i]` for every index; and the
same holds slot for slot for the parallel executor under any execution
order. -/
theorem batch_order_preservation (t : Tokenizer) (xs : List String)
    (ps : List (String × String)) (maxLen : Nat) (strategy : TruncationStrategy)
    (stride : Nat) (order : List Nat) (i : Nat) :
    (encodeList t xs maxLen strategy stride).length = xs.length ∧
      (encodePairList t ps maxLen strategy stride).length = ps.length ∧
      (encodeList t xs maxLen strategy stride)[i]? =
        (xs[i]?).map (fun x => encode t x maxLen strategy stride) ∧
      (encodePairList t ps maxLen strategy stride)[i]? =
        (ps[i]?).map (fun p => encodePair t p maxLen strategy stride) ∧
      (order.Perm (List.range xs.length) →
        (scheduleMap (fun x => encode t x maxLen strategy stride) xs order)[i]? =
          (xs[i]?).map (fun x => some (encode t x maxLen strategy stride))) := by
  refine ⟨by simp [encodeList], by simp [encodePairList],
    by simp [encodeList, List.getElem?_map], by simp [encodePairList, List.getElem?_map], ?_⟩
  intro h
  rw [scheduleMap_eq_map _ _ _ h, List.getElem?_map, List.getElem?_map]
  cases xs[i]? <;> rfl

/-- Witness for C7: slot 0 of a reversed-order execution over a two-element
batch holds the first input's encoding. -/
theorem batch_order_preservation_witness :
    (scheduleMap (fun x => encode demoTokenizer x 4 .longestFirst 0)
        ["hello world", "hello"] [1, 0])[0]? =
      ((["hello world", "hello"] : List String)[0]?).map
        (fun x => some (encode demoTokenizer x 4 .longestFirst 0)) :=
  (batch_order_preservation demoTokenizer ["hello world", "hello"] []
    4 .longestFirst 0 [1, 0] 0).2.2.2.2 (by decide)

/-- C8: the concrete scenario — with the demonstration vocabulary and the
single-sentence layout `[CLS] A [SEP]`, encoding "hello world" at
`max_len = 4` yields `token_ids = [0,2,3,1]`, `segment_ids = [0,0,0,0]` and
`special_tokens_mask = [1,0,0,1]`. -/
theorem concrete_scenario :
    encode demoTokenizer "hello world" 4 .longestFirst 0 =
      .ok (EncodingResult.mk [0, 2, 3, 1] [0, 0, 0, 0] [1, 0, 0, 1] []) := by
  decide

/-- C9: encoding is a function of the vocabulary and configuration flags
only, never of the model-family identity of the binding: two binding
instances sharing one vocabulary and one set of flags — such as a BERT-type
binding constructed from a DistilBERT vocabulary file and the reference
tokenizer of that same file — produce identical encodings on every input. -/
theorem family_independence (t₁ t₂ : Tokenizer)
    (hv : t₁.vocab = t₂.vocab) (hl : t₁.doLowerCase = t₂.doLowerCase)
    (hs : t₁.stripAccents = t₂.stripAccents)
    (hp : t₁.addPrefixSpace = t₂.addPrefixSpace) :
    ∀ (x : String) (p : String × String) (xs : List String) (maxLen : Nat)
      (strategy : TruncationStrategy) (stride : Nat),
      encode t₁ x maxLen strategy stride = encode t₂ x maxLen strategy stride ∧
        encodePair t₁ p maxLen strategy stride = encodePair t₂ p maxLen strategy stride ∧
        encodeList t₁ xs maxLen strategy stride = encodeList t₂ xs maxLen strategy stride := by
  obtain ⟨f₁, v₁, l₁, s₁, p₁⟩ := t₁
  obtain ⟨f₂, v₂, l₂, s₂, p₂⟩ := t₂
  dsimp only at hv hl hs hp
  subst hv
  subst hl
  subst hs
  subst hp
  intro x p xs maxLen strategy stride
  exact ⟨rfl, rfl, rfl⟩

/-- Witness for C9: a "bert" binding and a "distilbert" binding over the same
vocabulary and flags agree on a concrete input. -/
theorem family_independence_witness :
    encode demoTokenizer "hello world" 4 .longestFirst 0 =
        encode demoTokenizer2 "hello world" 4 .longestFirst 0 ∧
      encodePair demoTokenizer ("hello", "world") 4 .longestFirst 0 =
        encodePair demoTokenizer2 ("hello", "world") 4 .longestFirst 0 ∧
      encodeList demoTokenizer ["hello"] 4 .longestFirst 0 =
        encodeList demoTokenizer2 ["hello"] 4 .longestFirst 0 :=
  family_independence demoTokenizer demoTokenizer2 rfl rfl rfl rfl
    "hello world" ("hello", "world") ["hello"] 4 .longestFirst 0

/-- C10: no padding up to `max_len` — once the assembled sequence fits the
budget, the encoding result does not depend on the particular limit: any two
sufficiently large `max_len` values yield identical results, for a single
input and element for element across a batch. -/
theorem no_padding (t : Tokenizer) (x : String) (xs : List String)
    (maxLen₁ maxLen₂ : Nat) (strategy : TruncationStrategy) (stride : Nat)
    (hx₁ : (segment t x).length + 2 ≤ maxLen₁)
    (hx₂ : (segment t x).length + 2 ≤ maxLen₂)
    (hxs₁ : ∀ y ∈ xs, (segment t y).length + 2 ≤ maxLen₁)
    (hxs₂ : ∀ y ∈ xs, (segment t y).length + 2 ≤ maxLen₂) :
    encode t x maxLen₁ strategy stride = encode t x maxLen₂ strategy stride ∧
      encodeList t xs maxLen₁ strategy stride = encodeList t xs maxLen₂ strategy stride := by
  constructor
  · exact encode_fits_irrelevant t x maxLen₁ maxLen₂ strategy stride hx₁ hx₂
  · unfold encodeList
    apply List.map_congr_left
    intro y hy
    exact encode_fits_irrelevant t y maxLen₁ maxLen₂ strategy stride (hxs₁ y hy) (hxs₂ y hy)

/-- Witness for C10: encoding with a limit of 256 equals encoding with a
limit of 128 when no truncation is needed. -/
theorem no_padding_witness :
    encode demoTokenizer "hello world" 128 .longestFirst 0 =
        encode demoTokenizer "hello world" 256 .longestFirst 0 ∧
      encodeList demoTokenizer ["hello world", "hello"] 128 .longestFirst 0 =
        encodeList demoTokenizer ["hello world", "hello"] 256 .longestFirst 0 :=
  no_padding demoTokenizer "hello world" ["hello world", "hello"] 128 256
    .longestFirst 0 (by decide) (by decide) (by decide) (by decide)

end RustTokenizers
